import Mathlib

/-!
Verification of the semantic-cpp pipeline library (src/semantic.h, src/semantic.cpp).

The repository contains two near-duplicate revisions of the same design: the
header revision (namespaces functional / collector / collectable / semantic in
semantic.h) and the cpp revision (everything inside namespace semantic in
semantic.cpp).  Both are embedded below where a claim cites them.

A C++ generator is a push traversal taking an accept callback and an interrupt
predicate; the two callbacks share mutable state captured by reference.  We
embed a generator as a state-polymorphic function: the consumer chooses a state
type, an accept step and an interrupt test, and the generator threads the state
through the traversal exactly as the C++ closures mutate their captured
environment.
-/

namespace Semantic

/-- functional::Timestamp is a signed integer (long long). -/
abbrev Timestamp := Int

/-- The cpp-revision generator contract: interrupt sees only the element
(functional Predicate of E in semantic.cpp).  The consumer picks a state type,
an accept transition and an interrupt test; the generator folds its emission
through them, asking interrupt before each emission as every source adapter in
semantic.cpp does. -/
def Gen (E : Type) : Type 1 :=
  (σ : Type) → (σ → E → Timestamp → σ) → (σ → E → Bool) → σ → σ

/-- Traversal loop shared by the in-memory source adapters of semantic.cpp
(from(vector), of, fill, lines at 2286-2415): for each element, first test the
interrupt predicate and stop on true, otherwise accept the element with the
running index and continue with the index incremented. -/
def runFrom {E σ : Type} (accept : σ → E → Timestamp → σ) (interrupt : σ → E → Bool) :
    List E → Timestamp → σ → σ
  | [], _, s => s
  | x :: xs, i, s =>
    if interrupt s x then s else runFrom accept interrupt xs (i + 1) (accept s x i)

/-- from(const std::vector) (semantic.cpp 2367-2376): emits the elements in
order with timestamps 0, 1, 2, ..., checking the interrupt predicate before
each emission. -/
def ofList {E : Type} (xs : List E) : Gen E :=
  fun _ accept interrupt s0 => runFrom accept interrupt xs 0 s0

/-- Loop of range(start, end) (semantic.cpp 2439-2451): while current < end,
test interrupt, accept (current, index), then increment both.  The fuel
argument (end - start).toNat counts the remaining iterations of the while
loop for the unit step. -/
def runRange {σ : Type} (accept : σ → Int → Timestamp → σ) (interrupt : σ → Int → Bool) :
    Nat → Int → Timestamp → σ → σ
  | 0, _, _, s => s
  | n + 1, current, i, s =>
    if interrupt s current then s
    else runRange accept interrupt n (current + 1) (i + 1) (accept s current i)

/-- range(start, end) (semantic.cpp 2439-2451) at element type long long. -/
def rangeGen (start stop : Int) : Gen Int :=
  fun _ accept interrupt s0 => runRange accept interrupt (stop - start).toNat start 0 s0

/-- empty (semantic.cpp 2286-2289): a generator that emits nothing. -/
def emptyGen (E : Type) : Gen E := fun _ _ _ s0 => s0

/-- Semantic::filter (semantic.cpp 2624-2633): accept only elements satisfying
the predicate, timestamps unchanged, interrupt passed through unchanged. -/
def filter {E : Type} (g : Gen E) (p : E → Bool) : Gen E :=
  fun σ accept interrupt s0 =>
    g σ (fun s e t => if p e then accept s e t else s) interrupt s0

/-- Semantic::limit (semantic.cpp 2664-2675): accept then increment a counter;
the interrupt handed to the upstream generator becomes true once the counter
reaches n, or when the downstream interrupt fires. -/
def limit {E : Type} (g : Gen E) (n : Nat) : Gen E :=
  fun σ accept interrupt s0 =>
    (g (Nat × σ)
      (fun cs e t => (cs.1 + 1, accept cs.2 e t))
      (fun cs e => decide (n ≤ cs.1) || interrupt cs.2 e)
      (0, s0)).2

/-- Semantic::skip (semantic.cpp 2743-2756): drop the first n emissions while
counting them; afterwards accept with the timestamp rebased by subtracting n.
The downstream interrupt is passed through unchanged. -/
def skip {E : Type} (g : Gen E) (n : Nat) : Gen E :=
  fun σ accept interrupt s0 =>
    (g (Nat × σ)
      (fun cs e t => if cs.1 < n then (cs.1 + 1, cs.2) else (cs.1, accept cs.2 e (t - (n : Int))))
      (fun cs e => interrupt cs.2 e)
      (0, s0)).2

/-- Semantic::sub (semantic.cpp 2820-2833): a zero-based counter of upstream
emissions (the upstream timestamp is ignored); elements with counter at least
start are accepted with timestamp counter - start; the upstream interrupt
fires once the counter reaches end, or when the downstream interrupt fires. -/
def sub {E : Type} (g : Gen E) (start stop : Nat) : Gen E :=
  fun σ accept interrupt s0 =>
    (g (Nat × σ)
      (fun cs e _t =>
        (cs.1 + 1, if start ≤ cs.1 then accept cs.2 e ((cs.1 : Int) - (start : Int)) else cs.2))
      (fun cs e => decide (stop ≤ cs.1) || interrupt cs.2 e)
      (0, s0)).2

/-- Semantic::takeWhile (semantic.cpp 2835-2846): accept only elements
satisfying p, and make the upstream interrupt fire on the first element
violating p (or when the downstream interrupt fires). -/
def takeWhile {E : Type} (g : Gen E) (p : E → Bool) : Gen E :=
  fun σ accept interrupt s0 =>
    g σ (fun s e t => if p e then accept s e t else s)
      (fun s e => !p e || interrupt s e) s0

/-- Semantic::redirect (semantic.cpp 2707-2714): rewrite only the timestamp
through the supplied function; interrupt passed through unchanged. -/
def redirect {E : Type} (g : Gen E) (f : E → Timestamp → Timestamp) : Gen E :=
  fun σ accept interrupt s0 =>
    g σ (fun s e t => accept s e (f e t)) interrupt s0

/-- Semantic::reverse (semantic.cpp 2716-2723): accept each element with its
timestamp negated; element and emission order untouched. -/
def reverse {E : Type} (g : Gen E) : Gen E :=
  fun σ accept interrupt s0 =>
    g σ (fun s e t => accept s e (-t)) interrupt s0

/-- Observable emission of a generator: run it with an accept that records the
(element, timestamp) pairs in order and an interrupt that never fires (the
interrupt used by toVector and the other full terminal folds). -/
def emission {E : Type} (g : Gen E) : List (E × Timestamp) :=
  g (List (E × Timestamp)) (fun s e t => s ++ [(e, t)]) (fun _ _ => false) []

/-- Sequential path of Collectable::collect with an interrupter
(semantic.cpp 550-560): a state pair of accumulator and a shouldInterrupt flag;
accept folds the element and then sets the flag from the interrupter; the
generator is stopped by the flag.  The combiner parameter is unused on the
sequential path, exactly as in the source. -/
def collectSeq {E A R : Type} (g : Gen E) (identity : A) (interrupter : E → Bool)
    (accumulator : A → E → A) (_combiner : A → A → A) (finisher : A → R) : R :=
  finisher
    (g (A × Bool)
      (fun s e _t => if s.2 then s else (accumulator s.1 e, interrupter e))
      (fun s _e => s.2)
      (identity, false)).1

/-- Concurrent path of Collectable::collect (semantic.cpp 562-586): each of the
submitted worker tasks folds the full generator into a local accumulator
(lines 568-579), but those local results are never combined into result, which
stays at identity() (line 564) and is returned through the finisher
(line 584).  The combiner parameter is never applied.  The workers share an
atomic interrupt flag, but since their partial results are discarded the
observable return value is deterministic. -/
def collectPar {E A R : Type} (g : Gen E) (workers : Nat) (identity : A) (interrupter : E → Bool)
    (accumulator : A → E → A) (_combiner : A → A → A) (finisher : A → R) : R :=
  let _localResults : List A := (List.range workers).map (fun _ =>
    (g (A × Bool)
      (fun s e _t => if s.2 then s else (accumulator s.1 e, interrupter e))
      (fun s _e => s.2)
      (identity, false)).1)
  finisher identity

/-- Collectable::collect dispatch (semantic.cpp 550-587): sequential below
concurrency degree 2, otherwise the thread-pool path. -/
def collectDispatch {E A R : Type} (g : Gen E) (concurrent : Nat) (identity : A)
    (interrupter : E → Bool) (accumulator : A → E → A) (combiner : A → A → A)
    (finisher : A → R) : R :=
  if concurrent < 2 then collectSeq g identity interrupter accumulator combiner finisher
  else collectPar g concurrent identity interrupter accumulator combiner finisher

/-- Collectable::toVector (semantic.cpp 1013-1028): collect with a push_back
accumulator, a never-true interrupter, list concatenation as combiner and the
identity finisher, run sequentially. -/
def toVectorC {E : Type} (g : Gen E) : List E :=
  collectSeq g ([] : List E) (fun _ => false)
    (fun v e => v ++ [e]) (fun a b => a ++ b) (fun r => r)

/-- Collectable::findFirst sequential (semantic.cpp 676-695): the state is
(result, found, shouldInterrupt); the accumulator stores the first element and
sets the found flag; the interrupter reads the found flag, so the fold stops
right after the first element. -/
def findFirstSeq {E : Type} (g : Gen E) : Option E :=
  ((g ((Option E × Bool) × Bool)
    (fun s e _t =>
      if s.2 then s
      else
        let rf := if s.1.1.isNone then ((some e : Option E), true) else s.1
        (rf, rf.2))
    (fun s _e => s.2)
    ((none, false), false)).1).1

/-- Collectable::reduce without identity (semantic.cpp 896-914): optional
accumulator, first element seeds it, later elements fold through the supplied
function; never interrupts. -/
def reduceOpt {E : Type} (g : Gen E) (accumulator : E → E → E) : Option E :=
  collectSeq g (none : Option E) (fun _ => false)
    (fun r e =>
      match r with
      | none => some e
      | some x => some (accumulator x e))
    (fun a b =>
      match a, b with
      | none, b => b
      | a, none => a
      | some x, some y => some (accumulator x y))
    (fun r => r)

/-- Modelled from the spec: the class declarations of the cpp revision
(Collectable, OrderedCollectable, ...) are not under src/, only the member
definitions are.  The spec describes the materialized index of
OrderedCollectable as a sorted associative container keyed by Timestamp with
values E, and the member definitions insert std::make_pair(index, element) and
iterate pairs in key order, matching std::map of Timestamp to E.  We represent
the container as a list of (key, value) pairs kept sorted strictly ascending by
key; inserting an existing key keeps the stored value, which is the std::map
insert semantics. -/
def mapInsert {E : Type} : List (Timestamp × E) → Timestamp × E → List (Timestamp × E)
  | [], p => [p]
  | q :: rest, p =>
    if p.1 < q.1 then p :: q :: rest
    else if p.1 = q.1 then q :: rest
    else q :: mapInsert rest p

/-- Timestamp normalization of the arrange lambda (semantic.cpp 1099-1108 and
2762-2771): a positive timestamp maps to timestamp mod size, any other
timestamp maps to size - (absolute value mod size). -/
def arrangeKey (size : Nat) (t : Timestamp) : Timestamp :=
  if 0 < t then t % (size : Int) else (size : Int) - ((t.natAbs % size : Nat) : Int)

/-- The arrange step of OrderedCollectable::toIndexedSet (semantic.cpp
1099-1108): rebuild the container by inserting each pair under its normalized
key, in iteration order of the source container. -/
def arrange {E : Type} (c : List (Timestamp × E)) : List (Timestamp × E) :=
  c.foldl (fun r p => mapInsert r (arrangeKey c.length p.1, p.2)) []

/-- OrderedCollectable::toIndexedSet sequential (semantic.cpp 1097-1115): drain
the generator with a never-true interrupt, inserting (timestamp, element) into
the keyed container, then apply arrange. -/
def toIndexedSet {E : Type} (g : Gen E) : List (Timestamp × E) :=
  arrange (g (List (Timestamp × E)) (fun c e t => mapInsert c (t, e)) (fun _ _ => false) [])

/-- Sequential path of OrderedCollectable::collect with an interrupter
(semantic.cpp 1201-1210): fold the materialized container values in key order,
stopping once the interrupter fired on the previous element. -/
def orderedCollectSeq {E A R : Type} (container : List (Timestamp × E)) (identity : A)
    (interrupter : E → Bool) (accumulator : A → E → A) (finisher : A → R) : R :=
  finisher
    (container.foldl
      (fun (s : A × Bool) p => if s.2 then s else (accumulator s.1 p.2, interrupter p.2))
      (identity, false)).1

/-- OrderedCollectable::toVector (semantic.cpp 1619-1634) on the container
materialized from a generator at construction (semantic.cpp 1046-1051). -/
def toVectorOrdered {E : Type} (g : Gen E) : List E :=
  orderedCollectSeq (toIndexedSet g) ([] : List E) (fun _ => false)
    (fun v e => v ++ [e]) (fun r => r)

/-- Insertion into a list sorted by the boolean relation le; used to model the
effect of std::sort, which for the total orders used here produces the
ascending reordering of the input. -/
def insertSorted {α : Type} (le : α → α → Bool) : α → List α → List α
  | a, [] => [a]
  | a, b :: rest => if le a b then a :: b :: rest else b :: insertSorted le a rest

/-- Sort a list ascending by the boolean relation le (model of std::sort). -/
def sortBy {α : Type} (le : α → α → Bool) (l : List α) : List α :=
  l.foldr (insertSorted le) []

/-- Lexicographic order on (Timestamp, element) pairs: the comparison performed
by std::sort via operator< on std::pair in Semantic::sorted
(semantic.cpp 2778).  The timestamp component dominates; the element value only
breaks timestamp ties. -/
def pairLe (a b : Timestamp × Int) : Bool :=
  decide (a.1 < b.1) || (decide (a.1 = b.1) && decide (a.2 ≤ b.2))

/-- The local arrange of Semantic::sorted (semantic.cpp 2762-2771): the same
key normalization, building a vector.  The source calls result.insert with a
single pair argument, an overload std::vector does not have; the evident
reading (appending the normalized pair, as the map-based arrange of
toIndexedSet does keyed insertion) is modelled here.  The subsequent std::sort
makes the build order immaterial.  The source also routes the element through
a Timestamp local, an int round trip at the int instantiation verified here. -/
def arrangeVec (c : List (Timestamp × Int)) : List (Timestamp × Int) :=
  c.map (fun p => (arrangeKey c.length p.1, p.2))

/-- The re-emission loop of Semantic::sorted (semantic.cpp 2780-2783): for each
arranged pair, stop if the downstream interrupt fires on the element, else
accept (element, normalized timestamp). -/
def emitPairs {σ : Type} (accept : σ → Int → Timestamp → σ) (interrupt : σ → Int → Bool) :
    List (Timestamp × Int) → σ → σ
  | [], s => s
  | p :: rest, s =>
    if interrupt s p.2 then s else emitPairs accept interrupt rest (accept s p.2 p.1)

/-- Semantic::sorted without comparator (semantic.cpp 2758-2785), at element
type int: materialize (timestamp, element) pairs, skipping elements on which
the downstream interrupt already fires (the downstream state cannot change
during materialization since accept is not invoked, so the interrupt is tested
against the initial downstream state); normalize keys with arrange; sort the
pairs lexicographically with std::sort; re-emit element with its normalized
timestamp. -/
def sortedGen (g : Gen Int) : Gen Int :=
  fun _σ accept interrupt s0 =>
    let elements := g (List (Timestamp × Int))
      (fun c e t => if interrupt s0 e then c else c ++ [(t, e)])
      (fun _ e => interrupt s0 e) []
    let arranged := sortBy pairLe (arrangeVec elements)
    emitPairs accept interrupt arranged s0

/-- from(...).sorted().toVector(): Semantic::sorted returns an
OrderedCollectable, whose constructor materializes the container through
toIndexedSet (semantic.cpp 1046-1051), and toVector folds that container
(semantic.cpp 1619-1634). -/
def sortedToVector (g : Gen Int) : List Int :=
  toVectorOrdered (sortedGen g)

/-! Statistics view (cpp revision), at element and value type rational, the
exact-arithmetic model of the double instantiation used by the spec examples.
A Statistics built from a pipeline materializes its container exactly like
OrderedCollectable (semantic.cpp 1641-1655). -/

/-- Container of a Statistics built from an in-memory source list. -/
def statContainer (xs : List ℚ) : List (Timestamp × ℚ) :=
  toIndexedSet (ofList xs)

/-- Statistics::count (semantic.cpp 1779-1782, 1299-1302): container size. -/
def statCount (c : List (Timestamp × ℚ)) : Nat := c.length

/-- Statistics::sum (semantic.cpp 1956-1965). -/
def statSum (mapper : ℚ → ℚ) (c : List (Timestamp × ℚ)) : ℚ :=
  orderedCollectSeq c 0 (fun _ => false) (fun s e => s + mapper e) (fun r => r)

/-- Statistics::mean (semantic.cpp 1877-1882): zero when the count is zero,
else sum divided by count. -/
def statMean (mapper : ℚ → ℚ) (c : List (Timestamp × ℚ)) : ℚ :=
  if statCount c = 0 then 0 else statSum mapper c / (statCount c : ℚ)

/-- Statistics::variance (semantic.cpp 1851-1870): zero when fewer than two
elements, else the sum of squared deviations from the mean divided by
count - 1 (the sample denominator). -/
def statVariance (mapper : ℚ → ℚ) (c : List (Timestamp × ℚ)) : ℚ :=
  if statCount c < 2 then 0
  else
    let m := statMean mapper c
    let ss := orderedCollectSeq c 0 (fun _ => false)
      (fun s e => s + (mapper e - m) * (mapper e - m)) (fun r => r)
    ss / ((statCount c - 1 : Nat) : ℚ)

/-- Model of std::sqrt on rationals: exact on the perfect-square rationals at
which the development evaluates it. -/
def ratSqrt (q : ℚ) : ℚ := (Int.sqrt q.num : ℚ) / (Nat.sqrt q.den : ℚ)

/-- Statistics::standardDeviation (semantic.cpp 1872-1875): square root of the
variance, the square root supplied as a parameter modelling std::sqrt. -/
def statStdDev (sqrtFn : ℚ → ℚ) (mapper : ℚ → ℚ) (c : List (Timestamp × ℚ)) : ℚ :=
  sqrtFn (statVariance mapper c)

/-- Statistics::kurtosis (semantic.cpp 2034-2058): zero below four elements or
at zero standard deviation; otherwise the mean fourth power of deviations
divided by the fourth power of the standard deviation, minus 3. -/
def statKurtosis (sqrtFn : ℚ → ℚ) (mapper : ℚ → ℚ) (c : List (Timestamp × ℚ)) : ℚ :=
  if statCount c < 4 then 0
  else
    let m := statMean mapper c
    let sd := statStdDev sqrtFn mapper c
    if sd = 0 then 0
    else
      let sq := orderedCollectSeq c 0 (fun _ => false)
        (fun s e => s + (mapper e - m) * (mapper e - m) * (mapper e - m) * (mapper e - m))
        (fun r => r)
      sq / (statCount c : ℚ) / (sd * sd * sd * sd) - 3

/-- Statistics::median (semantic.cpp 1884-1912): collect the mapped values in
container order, sort them in the finisher, then average the two middle values
for an even count or take the middle value for an odd count; zero on empty. -/
def statMedian (mapper : ℚ → ℚ) (c : List (Timestamp × ℚ)) : ℚ :=
  let sortedValues := orderedCollectSeq c ([] : List ℚ) (fun _ => false)
    (fun v e => v ++ [mapper e]) (fun r => sortBy (fun a b => decide (a ≤ b)) r)
  let n := sortedValues.length
  if n = 0 then 0
  else if n % 2 = 0 then (sortedValues.getD (n / 2 - 1) 0 + sortedValues.getD (n / 2) 0) / 2
  else sortedValues.getD (n / 2) 0

/-- Increment of frequencies[value] in a std::map of value to count, keys kept
ascending (Statistics::frequency accumulator, semantic.cpp 1939-1942). -/
def freqInsert : List (ℚ × Nat) → ℚ → List (ℚ × Nat)
  | [], v => [(v, 1)]
  | p :: rest, v =>
    if v < p.1 then (v, 1) :: p :: rest
    else if v = p.1 then (p.1, p.2 + 1) :: rest
    else p :: freqInsert rest v

/-- Statistics::frequency (semantic.cpp 1933-1954) without the memoization
cache (a fresh instance computes it once; the cache only matters across
repeated calls on one instance). -/
def statFrequency (mapper : ℚ → ℚ) (c : List (Timestamp × ℚ)) : List (ℚ × Nat) :=
  orderedCollectSeq c ([] : List (ℚ × Nat)) (fun _ => false)
    (fun m e => freqInsert m (mapper e)) (fun r => r)

/-- Statistics::mode (semantic.cpp 1914-1931): walk the frequency map in
ascending key order keeping the first key of strictly maximal count; zero when
nothing was found. -/
def statMode (mapper : ℚ → ℚ) (c : List (Timestamp × ℚ)) : ℚ :=
  let fs := statFrequency mapper c
  let r := fs.foldl
    (fun (st : ℚ × Nat × Bool) p => if st.2.1 < p.2 then (p.1, p.2, true) else st)
    (0, 0, false)
  if r.2.2 then r.1 else 0

/-- Statistics::maximum (semantic.cpp 1784-1802): optional fold over the
container, keeping the current maximum when the comparator is nonnegative. -/
def statMaximum (comparator : ℚ → ℚ → Int) (c : List (Timestamp × ℚ)) : Option ℚ :=
  orderedCollectSeq c (none : Option ℚ) (fun _ => false)
    (fun currentMax e =>
      match currentMax with
      | none => some e
      | some m => if 0 ≤ comparator m e then some m else some e)
    (fun r => r)

/-- Statistics::minimum (semantic.cpp 1804-1822). -/
def statMinimum (comparator : ℚ → ℚ → Int) (c : List (Timestamp × ℚ)) : Option ℚ :=
  orderedCollectSeq c (none : Option ℚ) (fun _ => false)
    (fun currentMin e =>
      match currentMin with
      | none => some e
      | some m => if comparator m e ≤ 0 then some m else some e)
    (fun r => r)

/-! WindowCollectable (cpp revision). -/

/-- Window construction loop inside WindowCollectable::slide (semantic.cpp
2153-2165): starting at index 0 and advancing by step, each window takes up to
size elements from the window start.  The loop body reads identifiers source
and windowSize that are not declared anywhere under src/; we take the element
sequence as the source and the size argument for windowSize, which is the only
reading that typechecks.  The fuel equals the source length, enough iterations
for any positive step. -/
def buildWindowsGo (source : List Int) (size step : Nat) : Nat → Nat → List (List Int)
  | 0, _ => []
  | fuel + 1, ws =>
    if ws < source.length then
      ((source.drop ws).take size) :: buildWindowsGo source size step fuel (ws + step)
    else []

/-- The windows the slide loop computes (and then discards). -/
def buildWindows (source : List Int) (size step : Nat) : List (List Int) :=
  buildWindowsGo source size step source.length 0

/-- WindowCollectable::slide (semantic.cpp 2150-2168), observed as the list of
windows the returned stream emits: when size and step are positive the loop
builds the windows into a local that is never used, and the function always
returns empty of Semantic of E (line 2167), a stream emitting nothing. -/
def slideWindows (source : List Int) (size step : Nat) : List (List Int) :=
  if 0 < size ∧ 0 < step then
    let _windows := buildWindows source size step
    []
  else []

/-- WindowCollectable::tumble (semantic.cpp 2170-2173): delegates to the slide
with step equal to size (the source spells the call side, an identifier that
does not exist; slide is the only candidate). -/
def tumbleWindows (source : List Int) (size : Nat) : List (List Int) :=
  slideWindows source size size

/-! Header revision (semantic.h).  Its generator contract passes the timestamp
to the interrupt predicate as well (functional::Generator at semantic.h 92 uses
a BiPredicate), and the collector framework threads the accumulator into the
interrupt test (semantic.h 134). -/

/-- Header-revision generator: interrupt sees element and timestamp. -/
def HGen (E : Type) : Type 1 :=
  (σ : Type) → (σ → E → Timestamp → σ) → (σ → E → Timestamp → Bool) → σ → σ

/-- collector::Collector (semantic.h 152-161): identity, interrupt,
accumulator, combiner, finisher; interrupt and accumulator also receive the
timestamp, and interrupt receives the current accumulator. -/
structure HCollector (A E R : Type) where
  identity : A
  interrupt : A → E → Timestamp → Bool
  accumulator : A → E → Timestamp → A
  combiner : A → A → A
  finisher : A → R

/-- Traversal loop of the header from(std::vector) (semantic.h 2893-2903):
declares index 0 and never increments it, so every element is offered and
accepted with timestamp 0. -/
def hRunFrom {E σ : Type} (accept : σ → E → Timestamp → σ) (interrupt : σ → E → Timestamp → Bool) :
    List E → Timestamp → σ → σ
  | [], _, s => s
  | x :: xs, i, s =>
    if interrupt s x i then s else hRunFrom accept interrupt xs i (accept s x i)

/-- Header from(std::vector) (semantic.h 2893-2903). -/
def hFrom {E : Type} (xs : List E) : HGen E :=
  fun _ accept interrupt s0 => hRunFrom accept interrupt xs 0 s0

/-- Header Semantic::redirect (semantic.h, same shape as the cpp revision):
rewrite the timestamp through the supplied function, interrupt passed through
unchanged. -/
def hRedirect {E : Type} (g : HGen E) (f : E → Timestamp → Timestamp) : HGen E :=
  fun σ accept interrupt s0 =>
    g σ (fun s e t => accept s e (f e t)) interrupt s0

/-- Sequential path of collector::Collector::collect on a Generator
(semantic.h 379-387): fold the emission through the accumulator, the interrupt
test reading the current accumulator; the path returns the raw accumulator
(line 387 returns accumulator, applying no finisher, unlike every container
overload of collect). -/
def hCollectGenSeqA {E A : Type} (identity : A) (interrupt : A → E → Timestamp → Bool)
    (accumulator : A → E → Timestamp → A) (g : HGen E) : A :=
  g A (fun a e t => accumulator a e t) (fun a e t => interrupt a e t) identity

/-- collector::useFindFirst (semantic.h 1359-1384): the interrupt truth-tests
the optional accumulator; the accumulator stores the element only when nothing
is stored yet and the timestamp equals 0. -/
def hUseFindFirst {E : Type} : HCollector (Option E) E (Option E) where
  identity := none
  interrupt := fun a _ _ => a.isSome
  accumulator := fun a e i => if a.isNone && i == 0 then some e else a
  combiner := fun a b => if a.isNone && b.isSome then b else a
  finisher := fun a => a

/-- Header Collectable::findFirst (semantic.h 2144-2148) run sequentially: the
useFindFirst collector folded over the pipeline generator. -/
def hFindFirst {E : Type} (g : HGen E) : Option E :=
  hCollectGenSeqA (hUseFindFirst (E := E)).identity (hUseFindFirst (E := E)).interrupt
    (hUseFindFirst (E := E)).accumulator g

/-- collector::useMaximum (semantic.h 1281-1318): optional fold keeping the
comparator-larger element; its interrupt lambda returns the accumulator, whose
truth test stops the fold once a value is stored. -/
def hUseMaximum {E : Type} (comparator : E → E → Int) : HCollector (Option E) E (Option E) where
  identity := none
  interrupt := fun a _ _ => a.isSome
  accumulator := fun a e _ =>
    match a with
    | none => some e
    | some m => if 0 < comparator e m then some e else some m
  combiner := fun a b =>
    match a, b with
    | none, b => b
    | a, none => a
    | some x, some y => if 0 < comparator x y then some x else some y
  finisher := fun a => a

/-- Header maximum via useMaximum, sequential. -/
def hMaximum {E : Type} (comparator : E → E → Int) (g : HGen E) : Option E :=
  hCollectGenSeqA (hUseMaximum comparator).identity (hUseMaximum comparator).interrupt
    (hUseMaximum comparator).accumulator g

/-- collector::useVariance (semantic.h 1525-1558): accumulate
((sum, sum of squares), count); the finisher returns 0 for count at most 1 and
otherwise sumSquared / count - mean * mean clamped at 0, the population
variance. -/
def hUseVariance (mapper : ℚ → ℚ) : HCollector ((ℚ × ℚ) × ℚ) ℚ ℚ where
  identity := ((0, 0), 0)
  interrupt := fun _ _ _ => false
  accumulator := fun a e _ =>
    ((a.1.1 + mapper e, a.1.2 + mapper e * mapper e), a.2 + 1)
  combiner := fun a b => ((a.1.1 + b.1.1, a.1.2 + b.1.2), a.2 + b.2)
  finisher := fun a =>
    if a.2 ≤ 1 then 0
    else
      let m := a.1.1 / a.2
      let v := a.1.2 / a.2 - m * m
      if 0 < v then v else 0

/-- Header Statistics::variance (semantic.h 2233-2236): the useVariance
collector over the pipeline generator, sequential.  The Generator overload of
collect ends in return accumulator (semantic.h 387) where every container
overload applies the finisher; with distinct accumulator and result types that
return cannot even typecheck, so the finisher is applied here as in the
container overloads. -/
def hVariance (mapper : ℚ → ℚ) (g : HGen ℚ) : ℚ :=
  (hUseVariance mapper).finisher
    (hCollectGenSeqA (hUseVariance mapper).identity (hUseVariance mapper).interrupt
      (hUseVariance mapper).accumulator g)

/-- Observable emission of a header-revision generator. -/
def hEmission {E : Type} (g : HGen E) : List (E × Timestamp) :=
  g (List (E × Timestamp)) (fun s e t => s ++ [(e, t)]) (fun _ _ _ => false) []

/-- The pairs (element, timestamp) a freshly indexed source of the cpp revision
emits: elements in order, timestamps counting from the given start. -/
def indexPairs {E : Type} : List E → Timestamp → List (E × Timestamp)
  | [], _ => []
  | x :: xs, i => (x, i) :: indexPairs xs (i + 1)

/-! Helper lemmas about the traversal loops. -/

theorem runFrom_append_ts {E : Type} (f : E → Timestamp → Timestamp) :
    ∀ (es : List E) (i : Timestamp) (s : List (E × Timestamp)),
      runFrom (fun s e t => s ++ [(e, f e t)]) (fun _ _ => false) es i s
        = s ++ (indexPairs es i).map (fun q => (q.1, f q.1 q.2))
  | [], i, s => by simp [runFrom, indexPairs]
  | x :: xs, i, s => by
    simp [runFrom, indexPairs, runFrom_append_ts f xs (i + 1) (s ++ [(x, f x i)])]

theorem emission_ofList {E : Type} (es : List E) :
    emission (ofList es) = indexPairs es 0 := by
  have h := runFrom_append_ts (fun _ t => t) es 0 []
  simpa [emission, ofList] using h

theorem emission_redirect_ofList {E : Type} (es : List E) (f : E → Timestamp → Timestamp) :
    emission (redirect (ofList es) f)
      = (indexPairs es 0).map (fun q => (q.1, f q.1 q.2)) := by
  have h := runFrom_append_ts f es 0 []
  simpa [emission, redirect, ofList] using h

theorem emission_reverse_ofList {E : Type} (es : List E) :
    emission (reverse (ofList es))
      = (indexPairs es 0).map (fun q => (q.1, -q.2)) := by
  have h := runFrom_append_ts (E := E) (fun _ t => -t) es 0 []
  simpa [emission, reverse, ofList] using h

theorem runFrom_skip {E : Type} (n : Nat) :
    ∀ (es : List E) (i : Timestamp) (c : Nat) (s : List (E × Timestamp)),
      (runFrom
        (fun (cs : Nat × List (E × Timestamp)) e t =>
          if cs.1 < n then (cs.1 + 1, cs.2) else (cs.1, cs.2 ++ [(e, t - (n : Int))]))
        (fun _ _ => false) es i (c, s)).2
      = s ++ ((indexPairs es i).drop (n - c)).map (fun q => (q.1, q.2 - (n : Int)))
  | [], i, c, s => by simp [runFrom, indexPairs]
  | x :: xs, i, c, s => by
    by_cases hc : c < n
    · have hstep : n - c = (n - (c + 1)) + 1 := by omega
      simp [runFrom, indexPairs, hc, hstep,
        runFrom_skip n xs (i + 1) (c + 1) s]
    · have hzero : n - c = 0 := by omega
      have hzero1 : n - (c + 1) = 0 := by omega
      have ih := runFrom_skip n xs (i + 1) c (s ++ [(x, i - (n : Int))])
      simp [runFrom, indexPairs, hc, hzero, hzero1, ih]

theorem runFrom_limit {E : Type} (n : Nat) :
    ∀ (es : List E) (i : Timestamp) (c : Nat) (s : List (E × Timestamp)),
      (runFrom
        (fun (cs : Nat × List (E × Timestamp)) e t => (cs.1 + 1, cs.2 ++ [(e, t)]))
        (fun cs _ => decide (n ≤ cs.1)) es i (c, s)).2
      = s ++ (indexPairs es i).take (n - c)
  | [], i, c, s => by simp [runFrom, indexPairs]
  | x :: xs, i, c, s => by
    by_cases hc : n ≤ c
    · have hzero : n - c = 0 := by omega
      simp [runFrom, indexPairs, hc, hzero]
    · have hstep : n - c = (n - (c + 1)) + 1 := by omega
      have ih := runFrom_limit n xs (i + 1) (c + 1) (s ++ [(x, i)])
      simp [runFrom, indexPairs, hc, hstep, ih]

theorem runFrom_takeWhile {E : Type} (p : E → Bool) (f : E → Timestamp → Timestamp) :
    ∀ (es : List E) (i : Timestamp) (s : List (E × Timestamp)),
      runFrom (fun s e t => if p e then s ++ [(e, f e t)] else s)
        (fun _ e => !p e) es i s
      = s ++ ((indexPairs es i).takeWhile (fun q => p q.1)).map (fun q => (q.1, f q.1 q.2))
  | [], i, s => by simp [runFrom, indexPairs]
  | x :: xs, i, s => by
    by_cases hp : p x
    · have ih := runFrom_takeWhile p f xs (i + 1) (s ++ [(x, f x i)])
      simp [runFrom, indexPairs, List.takeWhile, hp, ih]
    · simp [runFrom, indexPairs, List.takeWhile, hp]

set_option maxRecDepth 4096 in
theorem runFrom_sub {E : Type} (start stop : Nat) :
    ∀ (es : List E) (i : Timestamp) (c : Nat) (s : List (E × Timestamp)),
      (runFrom
        (fun (cs : Nat × List (E × Timestamp)) e _t =>
          (cs.1 + 1,
            if start ≤ cs.1 then cs.2 ++ [(e, (cs.1 : Int) - (start : Int))] else cs.2))
        (fun cs _ => decide (stop ≤ cs.1)) es i (c, s)).2
      = s ++ indexPairs ((es.take (stop - c)).drop (start - c))
          ((max c start - start : Nat) : Int)
  | [], i, c, s => by simp [runFrom, indexPairs]
  | x :: xs, i, c, s => by
    by_cases hstop : stop ≤ c
    · have hzero : stop - c = 0 := by omega
      simp [runFrom, indexPairs, hstop, hzero]
    · have hstep : stop - c = (stop - (c + 1)) + 1 := by omega
      by_cases hstart : start ≤ c
      · have hd0 : start - c = 0 := by omega
        have hd1 : start - (c + 1) = 0 := by omega
        have ih := runFrom_sub start stop xs (i + 1) (c + 1)
          (s ++ [(x, (c : Int) - (start : Int))])
        rw [runFrom]
        simp only [decide_eq_true_eq, if_neg hstop, if_pos hstart]
        rw [ih]
        rw [hstep, hd0, hd1]
        simp only [List.take_succ_cons, List.drop_zero, List.append_assoc,
          List.singleton_append]
        rw [indexPairs]
        congr 1
        have e1 : ((max c start - start : Nat) : Int) = (c : Int) - (start : Int) := by omega
        have e2 : ((max (c + 1) start - start : Nat) : Int)
            = ((c : Int) - (start : Int)) + 1 := by omega
        rw [e1, e2]
      · have hd : start - c = (start - (c + 1)) + 1 := by omega
        have hm : (max c start - start : Nat) = 0 := by omega
        have hm1 : (max (c + 1) start - start : Nat) = 0 := by omega
        have ih := runFrom_sub start stop xs (i + 1) (c + 1) s
        rw [runFrom]
        simp only [decide_eq_true_eq, if_neg hstop, if_neg hstart]
        rw [ih, hstep, hd, hm, hm1]
        simp only [List.take_succ_cons, List.drop_succ_cons]

theorem mem_keys_mapInsert {E : Type} :
    ∀ (m : List (Timestamp × E)) (p : Timestamp × E) (k : Timestamp),
      k ∈ (mapInsert m p).map Prod.fst → k = p.1 ∨ k ∈ m.map Prod.fst
  | [], p, k => by simp [mapInsert]
  | q :: rest, p, k => by
    rw [mapInsert]
    by_cases h1 : p.1 < q.1
    · rw [if_pos h1]
      intro h
      simpa using h
    · rw [if_neg h1]
      by_cases h2 : p.1 = q.1
      · rw [if_pos h2]
        intro h
        right
        simpa using h
      · rw [if_neg h2]
        intro h
        rcases List.mem_map.mp h with ⟨r, hr, hk⟩
        rcases List.mem_cons.mp hr with hq | hrest
        · right
          subst hq
          simp [← hk]
        · rcases mem_keys_mapInsert rest p k
            (List.mem_map.mpr ⟨r, hrest, hk⟩) with h3 | h4
          · exact Or.inl h3
          · right
            simpa using Or.inr h4

theorem length_mapInsert {E : Type} :
    ∀ (m : List (Timestamp × E)) (p : Timestamp × E),
      (mapInsert m p).length ≤ m.length + 1
  | [], p => by simp [mapInsert]
  | q :: rest, p => by
    rw [mapInsert]
    by_cases h1 : p.1 < q.1
    · simp [h1]
    · rw [if_neg h1]
      by_cases h2 : p.1 = q.1
      · simp [h2]
      · rw [if_neg h2]
        have := length_mapInsert rest p
        simp only [List.length_cons]
        omega

theorem keys_foldl_mapInsert {E : Type} (P : Timestamp → Prop)
    (keyFun : (Timestamp × E) → Timestamp) :
    ∀ (l : List (Timestamp × E)) (acc : List (Timestamp × E)),
      (∀ k ∈ acc.map Prod.fst, P k) → (∀ p ∈ l, P (keyFun p)) →
      ∀ k ∈ (l.foldl (fun r p => mapInsert r (keyFun p, p.2)) acc).map Prod.fst, P k
  | [], acc, hacc, _, k => by
    intro hk
    exact hacc k hk
  | p :: rest, acc, hacc, hl, k => by
    intro hk
    refine keys_foldl_mapInsert P keyFun rest (mapInsert acc (keyFun p, p.2)) ?_ ?_ k hk
    · intro k2 hk2
      rcases mem_keys_mapInsert acc (keyFun p, p.2) k2 hk2 with h | h
      · subst h
        exact hl p (List.mem_cons_self p rest)
      · exact hacc k2 h
    · intro q hq
      exact hl q (List.mem_cons_of_mem p hq)

theorem arrangeKey_bound (size : Nat) (hs : 0 < size) (t : Timestamp) :
    0 ≤ arrangeKey size t ∧ arrangeKey size t ≤ (size : Int) := by
  have hne : (size : Int) ≠ 0 := by exact_mod_cast hs.ne'
  have hpos : (0 : Int) < (size : Int) := by exact_mod_cast hs
  rw [arrangeKey]
  by_cases ht : 0 < t
  · rw [if_pos ht]
    exact ⟨Int.emod_nonneg t hne, le_of_lt (Int.emod_lt_of_pos t hpos)⟩
  · rw [if_neg ht]
    have h1 : t.natAbs % size < size := Nat.mod_lt _ hs
    have h2 : ((t.natAbs % size : Nat) : Int) < (size : Int) := by exact_mod_cast h1
    have h3 : (0 : Int) ≤ ((t.natAbs % size : Nat) : Int) := Int.natCast_nonneg _
    constructor
    · linarith
    · linarith

theorem keys_arrange_bound {E : Type} (c : List (Timestamp × E)) (k : Timestamp)
    (hk : k ∈ (arrange c).map Prod.fst) : 0 ≤ k ∧ k ≤ (c.length : Int) := by
  rcases c with _ | ⟨p0, rest⟩
  · simp [arrange] at hk
  · have hs : 0 < (p0 :: rest).length := by simp
    refine keys_foldl_mapInsert
      (fun k => 0 ≤ k ∧ k ≤ ((p0 :: rest).length : Int))
      (fun p => arrangeKey (p0 :: rest).length p.1)
      (p0 :: rest) [] ?_ ?_ k hk
    · intro k2 hk2
      simp at hk2
    · intro p _
      exact arrangeKey_bound (p0 :: rest).length hs p.1

theorem length_runFrom_mapInsert {E : Type} (f : E → Timestamp → Timestamp) :
    ∀ (es : List E) (i : Timestamp) (m : List (Timestamp × E)),
      (runFrom (fun c e t => mapInsert c (f e t, e)) (fun _ _ => false) es i m).length
        ≤ m.length + es.length
  | [], i, m => by simp [runFrom]
  | x :: xs, i, m => by
    rw [runFrom]
    simp only [if_neg Bool.false_ne_true]
    have h1 := length_runFrom_mapInsert f xs (i + 1) (mapInsert m (f x i, x))
    have h2 := length_mapInsert m (f x i, x)
    simp only [List.length_cons]
    omega

theorem toIndexedSet_keys_bound {E : Type} (g : Gen E) (bound : Nat)
    (hlen : (g (List (Timestamp × E)) (fun c e t => mapInsert c (t, e))
        (fun _ _ => false) []).length ≤ bound)
    (k : Timestamp) (hk : k ∈ (toIndexedSet g).map Prod.fst) :
    0 ≤ k ∧ k ≤ (bound : Int) := by
  have h1 := keys_arrange_bound
    (g (List (Timestamp × E)) (fun c e t => mapInsert c (t, e)) (fun _ _ => false) [])
    k (by simpa [toIndexedSet] using hk)
  have h2 : ((g (List (Timestamp × E)) (fun c e t => mapInsert c (t, e))
      (fun _ _ => false) []).length : Int) ≤ (bound : Int) := by exact_mod_cast hlen
  exact ⟨h1.1, le_trans h1.2 h2⟩

/-! Claim theorems. -/

/-- C1: the claim states that for every associative commutative collector with
unit identity, collect at concurrency degree at least 2 equals the sequential
collect.  The cited Collectable::collect (semantic.cpp 519-546) violates this:
its concurrent branch discards every worker partial result and returns the
finished identity, so for the sum collector over [1, 2, 3] the parallel result
is 0 while the sequential result is 6. -/
theorem c1_parallel_collect_discards_partials :
    collectDispatch (ofList ([1, 2, 3] : List Int)) 2 (0 : Int) (fun _ => false)
        (fun a e => a + e) (fun a b => a + b) (fun r => r) = 0
  ∧ collectDispatch (ofList ([1, 2, 3] : List Int)) 1 (0 : Int) (fun _ => false)
        (fun a e => a + e) (fun a b => a + b) (fun r => r) = 6
  ∧ (0 : Int) ≠ 6 := by
  refine ⟨rfl, rfl, by decide⟩

/-- C2: the claim states that sorted() sorts by element value with timestamp as
tie-break, so that from([5,3,1,4,2]).sorted().toVector() = [1,2,3,4,5].  The
code (semantic.cpp 2758-2785) sorts the (normalized timestamp, element) pairs
lexicographically, so the normalized timestamp dominates and the element value
never reorders distinct timestamps: the pipeline re-emits the input order. -/
theorem c2_sorted_emits_input_order :
    sortedToVector (ofList ([5, 3, 1, 4, 2] : List Int)) = [5, 3, 1, 4, 2]
  ∧ ([5, 3, 1, 4, 2] : List Int) ≠ [1, 2, 3, 4, 5] := by
  refine ⟨rfl, by decide⟩

/-- C3 counterexample: the claim states the ordered materialization normalizes
timestamps into [0, N).  For from([1,2,3]).reverse().toOrdered() one
materialized key equals 3 = N, which is not below N = 3. -/
theorem c3_normalized_key_escapes_range :
    (3 : Timestamp) ∈ (toIndexedSet (reverse (ofList ([1, 2, 3] : List Int)))).map Prod.fst
  ∧ ¬ ((3 : Int) < (([1, 2, 3] : List Int).length : Int)) := by
  refine ⟨by decide, by decide⟩

/-- C3 (amended): reverse() rewrites only the timestamp of each element by
negating it, never changing the element or the emission order; a downstream
ordered materialization re-keys by the new timestamps after normalizing them
by the modulus formula into [0, N] (a timestamp that is zero or negative maps
to N - (its absolute value mod N), so timestamp 0 lands on N, not 0); and
from([1,2,3]).reverse().toOrdered().toVector() = [3,2,1]. -/
theorem c3_reverse_toOrdered :
    (∀ es : List Int,
      emission (reverse (ofList es)) = (emission (ofList es)).map (fun q => (q.1, -q.2)))
  ∧ (∀ (es : List Int) (k : Timestamp),
      k ∈ (toIndexedSet (reverse (ofList es))).map Prod.fst →
        0 ≤ k ∧ k ≤ (es.length : Int))
  ∧ toVectorOrdered (reverse (ofList ([1, 2, 3] : List Int))) = [3, 2, 1] := by
  refine ⟨?_, ?_, rfl⟩
  · intro es
    rw [emission_reverse_ofList, emission_ofList]
  · intro es k hk
    refine toIndexedSet_keys_bound (reverse (ofList es)) es.length ?_ k hk
    simpa [reverse, ofList] using
      length_runFrom_mapInsert (E := Int) (fun _ t => -t) es 0 []

/-- C3 witness: the bound of the amended normalization instantiated at the
concrete reversed pipeline over [1, 2, 3] and its materialized key 3. -/
theorem c3_reverse_toOrdered_witness :
    0 ≤ (3 : Timestamp) ∧ (3 : Timestamp) ≤ (([1, 2, 3] : List Int).length : Int) :=
  c3_reverse_toOrdered.2.1 [1, 2, 3] 3 (by decide)

/-- C4: skip(n) drops the first n emitted elements and rebases the remaining
timestamps by subtracting n; limit(n) stops after n accepted elements;
range(0,10).skip(3).limit(4).toVector() = [3,4,5,6]; skipping past the end
and limit(0) both give the empty sequence. -/
theorem c4_skip_limit_boundaries :
    (∀ (E : Type) (es : List E) (n : Nat),
      emission (skip (ofList es) n)
        = ((emission (ofList es)).drop n).map (fun q => (q.1, q.2 - (n : Int))))
  ∧ (∀ (E : Type) (es : List E) (n : Nat),
      emission (limit (ofList es) n) = (emission (ofList es)).take n)
  ∧ toVectorC (limit (skip (rangeGen 0 10) 3) 4) = [3, 4, 5, 6]
  ∧ toVectorC (skip (ofList ([1, 2, 3] : List Int)) 5) = []
  ∧ toVectorC (limit (ofList ([1, 2, 3] : List Int)) 0) = [] := by
  refine ⟨?_, ?_, rfl, rfl, rfl⟩
  · intro E es n
    rw [emission_ofList]
    have h := runFrom_skip (E := E) n es 0 0 []
    simpa [emission, skip, ofList] using h
  · intro E es n
    rw [emission_ofList]
    have h := runFrom_limit (E := E) n es 0 0 []
    simpa [emission, limit, ofList] using h

/-- C5: the claim states every non-empty sequential pipeline yields its first
emitted element from findFirst().  The cited Collectable::findFirst
(semantic.cpp 676-695) does; the cited collector::useFindFirst
(semantic.h 1359-1384) only accepts an element whose timestamp equals 0, so on
the non-empty pipeline from([1,2,3]).redirect(t+1) the header findFirst
returns the empty optional. -/
theorem c5_findFirst_first_element :
    findFirstSeq (redirect (ofList ([1, 2, 3] : List Int)) (fun _ t => t + 1)) = some 1
  ∧ hFindFirst (hRedirect (hFrom ([1, 2, 3] : List Int)) (fun _ t => t + 1)) = none
  ∧ hEmission (hRedirect (hFrom ([1, 2, 3] : List Int)) (fun _ t => t + 1)) ≠ [] := by
  refine ⟨rfl, rfl, by decide⟩

/-- C6: on the empty sequence, maximum, minimum and identity-free reduce give
the empty optional instead of an error, and the division-based statistics give
zero instead of dividing by zero (mean on empty, variance on fewer than two
elements). -/
theorem c6_empty_queries_neutral :
    (∀ comparator : ℚ → ℚ → Int, statMaximum comparator (statContainer []) = none)
  ∧ (∀ comparator : ℚ → ℚ → Int, statMinimum comparator (statContainer []) = none)
  ∧ (∀ accumulator : Int → Int → Int,
      reduceOpt (ofList ([] : List Int)) accumulator = none)
  ∧ (∀ mapper : ℚ → ℚ, statMean mapper (statContainer []) = 0)
  ∧ (∀ mapper : ℚ → ℚ, statVariance mapper (statContainer []) = 0)
  ∧ (∀ mapper : ℚ → ℚ, statVariance mapper (statContainer [5]) = 0)
  ∧ (∀ comparator : ℚ → ℚ → Int, hMaximum comparator (hFrom ([] : List ℚ)) = none) :=
  ⟨fun _ => rfl, fun _ => rfl, fun _ => rfl, fun _ => rfl,
    fun _ => rfl, fun _ => rfl, fun _ => rfl⟩

/-- C7 counterexample: the claim states variance uses the sample N-1
denominator, giving 32/7 on [2,4,4,4,5,5,7,9].  The cited collector
useVariance (semantic.h 1525-1558) computes the population variance
sumSquared/count - mean*mean, which on this input is 4, not 32/7. -/
theorem c7_useVariance_population :
    hVariance (fun x => x) (hFrom ([2, 4, 4, 4, 5, 5, 7, 9] : List ℚ)) = 4
  ∧ ((4 : ℚ) ≠ 32 / 7) := by
  constructor
  · norm_num [hVariance, hUseVariance, hCollectGenSeqA, hFrom, hRunFrom]
  · norm_num

/-- C7 (amended): Statistics::variance (semantic.cpp 1851-1870) uses the
sample N-1 denominator while the collector useVariance computes the population
variance; Statistics::kurtosis subtracts 3 from the standardized fourth
moment (excess kurtosis); and on [2,4,4,4,5,5,7,9] mean = 5, sample variance
= 32/7, population-collector variance = 4, mode = 4, median = 4.5.  The
kurtosis conjunct evaluates at [0,0,0,4], whose sample variance 4 is an exact
square of the std::sqrt model. -/
theorem c7_statistics_values :
    statMean (fun x => x) (statContainer [2, 4, 4, 4, 5, 5, 7, 9]) = 5
  ∧ statVariance (fun x => x) (statContainer [2, 4, 4, 4, 5, 5, 7, 9]) = 32 / 7
  ∧ statMedian (fun x => x) (statContainer [2, 4, 4, 4, 5, 5, 7, 9]) = 9 / 2
  ∧ statMode (fun x => x) (statContainer [2, 4, 4, 4, 5, 5, 7, 9]) = 4
  ∧ hVariance (fun x => x) (hFrom ([2, 4, 4, 4, 5, 5, 7, 9] : List ℚ)) = 4
  ∧ statKurtosis ratSqrt (fun x => x) (statContainer [0, 0, 0, 4]) = 21 / 16 - 3 := by
  refine ⟨?_, ?_, ?_, ?_, ?_, ?_⟩
  · norm_num [statMean, statSum, statCount, statContainer, toIndexedSet, ofList, runFrom,
      arrange, arrangeKey, mapInsert, orderedCollectSeq, List.foldl]
  · norm_num [statVariance, statMean, statSum, statCount, statContainer, toIndexedSet, ofList,
      runFrom, arrange, arrangeKey, mapInsert, orderedCollectSeq, List.foldl]
  · norm_num [statMedian, statContainer, toIndexedSet, ofList, runFrom, arrange, arrangeKey,
      mapInsert, orderedCollectSeq, List.foldl, sortBy, insertSorted, List.foldr, List.getD]
  · norm_num [statMode, statFrequency, freqInsert, statContainer, toIndexedSet, ofList,
      runFrom, arrange, arrangeKey, mapInsert, orderedCollectSeq, List.foldl]
  · norm_num [hVariance, hUseVariance, hCollectGenSeqA, hFrom, hRunFrom]
  · norm_num [statKurtosis, statStdDev, statVariance, statMean, statSum, statCount, ratSqrt,
      statContainer, toIndexedSet, ofList, runFrom, arrange, arrangeKey, mapInsert,
      orderedCollectSeq, List.foldl]

/-- C8: the claim states tumble(3) over the seven elements 0..6 yields the
windows [0,1,2], [3,4,5], [6].  The cited WindowCollectable::slide
(semantic.cpp 2150-2168) computes exactly those windows into a local it never
uses and always returns the empty stream, so tumble emits no window at all. -/
theorem c8_tumble_returns_empty :
    tumbleWindows [0, 1, 2, 3, 4, 5, 6] 3 = ([] : List (List Int))
  ∧ buildWindows [0, 1, 2, 3, 4, 5, 6] 3 3 = [[0, 1, 2], [3, 4, 5], [6]]
  ∧ ([] : List (List Int)) ≠ [[0, 1, 2], [3, 4, 5], [6]] := by
  refine ⟨rfl, rfl, by decide⟩

/-- C9: takeWhile(p) emits exactly the longest prefix of the upstream emission
whose elements all satisfy p, keeping the original timestamps; this holds over
every in-memory source and every timestamp rewriting of it. -/
theorem c9_takeWhile_longest_prefix :
    ∀ (es : List Int) (f : Int → Timestamp → Timestamp) (p : Int → Bool),
      emission (takeWhile (redirect (ofList es) f) p)
        = (emission (redirect (ofList es) f)).takeWhile (fun q => p q.1) := by
  intro es f p
  rw [emission_redirect_ofList]
  have h := runFrom_takeWhile p f es 0 []
  have hL :
      emission (takeWhile (redirect (ofList es) f) p)
        = ((indexPairs es 0).takeWhile (fun q => p q.1)).map (fun q => (q.1, f q.1 q.2)) := by
    simpa [emission, takeWhile, redirect, ofList, Bool.or_false] using h
  rw [hL, List.takeWhile_map]
  rfl

/-- C10: sub(start, end) emits exactly the upstream elements at emission
positions start through end - 1 (counting emissions, ignoring upstream
timestamps, as the arbitrary timestamp rewriting shows), re-timestamped from
0, and behaves as the prefix of length end of the source dictates. -/
theorem c10_sub_emits_position_range :
    ∀ (es : List Int) (f : Int → Timestamp → Timestamp) (start stop : Nat),
      emission (sub (redirect (ofList es) f) start stop)
        = indexPairs ((es.take stop).drop start) 0 := by
  intro es f start stop
  have h := runFrom_sub (E := Int) start stop es 0 0 []
  have hL :
      emission (sub (redirect (ofList es) f) start stop)
        = [] ++ indexPairs ((es.take (stop - 0)).drop (start - 0))
            ((max 0 start - start : Nat) : Int) := by
    simpa [emission, sub, redirect, ofList, Bool.or_false] using h
  simpa using hL

end Semantic
